import Mathlib

/-!
Shallow embedding of the streaming byte-buffer adapter from
gst-plugin/src/adapter.rs.

The adapter stores a FIFO of read-mapped buffer chunks together with a
running byte count (size), a skip offset into the front chunk and a
scratch vector.  Bytes are modelled as natural numbers, chunks as lists
of bytes, and machine-integer (usize) subtractions that the source
performs unchecked are modelled by a checked subtraction that signals a
panic on underflow, matching a debug build.  Fallible Rust code paths
(unwrap, slice indexing out of bounds, failed assertions) are modelled
by an explicit panic outcome.
-/

set_option autoImplicit false

/-- One chunk held by the adapter: the byte contents of a single
read-mapped buffer (ReadMappedBuffer in the source). -/
abbrev Chunk := List Nat

/-- Modelled from the spec: an owned GStreamer buffer (GstRc of Buffer in
the source; the buffer object itself lives outside src/).  The data field
is its byte contents; the shared field records provenance: true when the
buffer was produced by copy_region as a reference-counted sub-region that
shares backing storage with an existing chunk, false for a freshly
allocated buffer. -/
structure GstBuffer where
  data : List Nat
  shared : Bool
deriving DecidableEq

/-- Checked usize subtraction: the source subtracts unchecked, which
panics on underflow in a debug build; none models that panic. -/
def sub? (a b : Nat) : Option Nat :=
  if b ≤ a then some (a - b) else none

/-- Rust slice indexing item[start..start+len]: none models the
out-of-bounds panic. -/
def slice? (item : List Nat) (start len : Nat) : Option (List Nat) :=
  if start + len ≤ item.length then some ((item.drop start).take len) else none

/-- Rust data[idx..idx+src.length].copy_from_slice(src): replaces that
range of data by src; none models the out-of-bounds panic. -/
def writeRange? (data : List Nat) (idx : Nat) (src : List Nat) : Option (List Nat) :=
  if idx + src.length ≤ data.length then
    some (data.take idx ++ src ++ data.drop (idx + src.length))
  else none

/-- Total number of bytes stored in a list of chunks. -/
def sumLen (l : List Chunk) : Nat := (l.map List.length).sum

/-- Length of the front chunk, 0 for an empty queue. -/
def headLen (l : List Chunk) : Nat :=
  match l with
  | [] => 0
  | front :: _ => front.length

/-- Concatenation of all chunk contents, in queue order. -/
def catChunks : List Chunk → List Nat
  | [] => []
  | c :: rest => c ++ catChunks rest

/-- The Adapter struct: deque of chunks (front first), size
(total_available), skip offset into the front chunk, scratch vector. -/
structure Adapter where
  deque : List Chunk
  size : Nat
  skip : Nat
  scratch : List Nat
deriving DecidableEq

/-- The single adapter error kind. -/
inductive AdapterError where
  | NotEnoughData
deriving DecidableEq

/-- Outcome of a Rust call: Ok, Err, or a panic (failed unwrap, slice
index out of bounds, failed assert, usize underflow in a debug build). -/
inductive RResult (α : Type) where
  | ok : α → RResult α
  | err : AdapterError → RResult α
  | panic : RResult α
deriving DecidableEq

/-- Adapter::new. -/
def Adapter.new : Adapter := ⟨[], 0, 0, []⟩

/-- Adapter::push: size grows by the buffer length and the read-mapped
view of the buffer is appended at the back of the deque. -/
def Adapter.push (a : Adapter) (buffer : GstBuffer) : Adapter :=
  { a with size := a.size + buffer.data.length,
           deque := a.deque ++ [buffer.data] }

/-- Adapter::clear: drop all chunks, reset size and skip, empty scratch. -/
def Adapter.clear (_a : Adapter) : Adapter := ⟨[], 0, 0, []⟩

/-- Adapter::get_available. -/
def Adapter.get_available (a : Adapter) : Nat := a.size

/-- Adapter::copy_data: walk the deque from the front, copying
min(left, item.len() - skip) bytes from each chunk (offset skip in the
first, 0 afterwards) into data starting at index idx, until left bytes
have been copied; the source asserts left == 0 when the loop ends.
Returns the final contents of data, or none on a panic (underflow of
item.len() - skip, slice indexing out of bounds, or the final assert). -/
def copy_data : List Chunk → Nat → List Nat → Nat → Nat → Option (List Nat)
  | [], _, data, _, left => if left = 0 then some data else none
  | item :: rest, skip, data, idx, left =>
    match sub? item.length skip with
    | none => none
    | some rem =>
      match slice? item skip (min left rem) with
      | none => none
      | some src =>
        match writeRange? data idx src with
        | none => none
        | some data' =>
          if left - min left rem = 0 then some data'
          else copy_data rest 0 data' (idx + min left rem) (left - min left rem)

/-- Adapter::peek_into: copy data.length bytes at the current read
position into the caller-supplied slice; on the NotEnoughData error the
destination is returned unmodified. -/
def Adapter.peek_into (a : Adapter) (data : List Nat) : RResult (List Nat) :=
  if a.size < data.length then .err .NotEnoughData
  else if data.length = 0 then .ok data
  else
    match copy_data a.deque a.skip data 0 data.length with
    | some data' => .ok data'
    | none => .panic

/-- Slow path of Adapter::peek: scratch.truncate(0) followed by
scratch.reserve(size) leaves scratch with length 0 (reserve only grows
capacity), so copy_data receives a zero-length destination slice. -/
def Adapter.peekScratch (a : Adapter) (size : Nat) : RResult (Adapter × List Nat) :=
  match copy_data a.deque a.skip [] 0 size with
  | some data' => .ok ({ a with scratch := data' }, data')
  | none => .panic

/-- Adapter::peek: fast path returns a sub-slice of the front chunk when
it holds skip + size bytes; otherwise the scratch slow path runs. -/
def Adapter.peek (a : Adapter) (size : Nat) : RResult (Adapter × List Nat) :=
  if a.size < size then .err .NotEnoughData
  else if size = 0 then .ok (a, [])
  else
    match a.deque with
    | front :: _ =>
      match sub? front.length a.skip with
      | none => .panic
      | some rem =>
        if size ≤ rem then
          match slice? front a.skip size with
          | none => .panic
          | some v => .ok (a, v)
        else a.peekScratch size
    | [] => a.peekScratch size

/-- The while loop of Adapter::flush over (deque, size, skip, left):
either the front chunk (minus skip) fits in left and is popped, or skip
advances inside it and the loop stops.  none models a panic: the unwrap
of front() on an empty deque, or a usize underflow. -/
def flushLoop : List Chunk → Nat → Nat → Nat → Option (List Chunk × Nat × Nat)
  | [], size, skip, left => if left = 0 then some ([], size, skip) else none
  | front :: rest, size, skip, left =>
    if left = 0 then some (front :: rest, size, skip)
    else
      match sub? front.length skip with
      | none => none
      | some front_size =>
        if front_size ≤ left then
          match sub? size front_size with
          | none => none
          | some size' => flushLoop rest size' 0 (left - front_size)
        else
          match sub? size left with
          | none => none
          | some size' => some (front :: rest, size', skip + left)

/-- The same flush while loop as a literal step-counted transcription:
fuel bounds the number of loop iterations, and none means the loop
panicked or did not terminate within fuel iterations. -/
def flushLoopF : Nat → List Chunk → Nat → Nat → Nat → Option (List Chunk × Nat × Nat)
  | 0, _, _, _, _ => none
  | _ + 1, [], size, skip, left => if left = 0 then some ([], size, skip) else none
  | fuel + 1, front :: rest, size, skip, left =>
    if left = 0 then some (front :: rest, size, skip)
    else
      match sub? front.length skip with
      | none => none
      | some front_size =>
        if front_size ≤ left then
          match sub? size front_size with
          | none => none
          | some size' => flushLoopF fuel rest size' 0 (left - front_size)
        else
          match sub? size left with
          | none => none
          | some size' => some (front :: rest, size', skip + left)

/-- Adapter::flush. -/
def Adapter.flush (a : Adapter) (size : Nat) : RResult Adapter :=
  if a.size < size then .err .NotEnoughData
  else if size = 0 then .ok a
  else
    match flushLoop a.deque a.size a.skip size with
    | some (d, s, k) => .ok { a with deque := d, size := s, skip := k }
    | none => .panic

/-- Modelled from the spec: Buffer::new (gst-plugin/src/buffer.rs is not
under src/) returns a valid zero-length owned buffer. -/
def buffer_new : GstBuffer := ⟨[], false⟩

/-- Modelled from the spec: Buffer::copy_region(offset, Some(len))
(gst-plugin/src/buffer.rs is not under src/) produces a reference-counted
sub-region of the buffer that shares its backing storage, performing no
byte copy; it fails when the region exceeds the buffer. -/
def copy_region (chunk : Chunk) (offset len : Nat) : Option GstBuffer :=
  if offset + len ≤ chunk.length then some ⟨(chunk.drop offset).take len, true⟩
  else none

/-- Slow path of Adapter::get_buffer: allocate a fresh buffer of exactly
size bytes (Buffer::new_with_size, modelled from the spec as a fresh
allocation whose contents are then fully overwritten), fill it with
copy_data, then flush size bytes. -/
def Adapter.getBufferCopy (a : Adapter) (size : Nat) : RResult (Adapter × GstBuffer) :=
  match copy_data a.deque a.skip (List.replicate size 0) 0 size with
  | none => .panic
  | some filled =>
    match a.flush size with
    | .ok a' => .ok (a', ⟨filled, false⟩)
    | _ => .panic

/-- Adapter::get_buffer: fast path takes a copy_region sub-buffer of the
front chunk when it holds skip + size bytes, then flushes; otherwise the
copying slow path runs. -/
def Adapter.get_buffer (a : Adapter) (size : Nat) : RResult (Adapter × GstBuffer) :=
  if a.size < size then .err .NotEnoughData
  else if size = 0 then .ok (a, buffer_new)
  else
    match a.deque with
    | front :: _ =>
      match sub? front.length a.skip with
      | none => .panic
      | some rem =>
        if size ≤ rem then
          match copy_region front a.skip size with
          | none => .panic
          | some sub =>
            match a.flush size with
            | .ok a' => .ok (a', sub)
            | _ => .panic
        else a.getBufferCopy size
    | [] => a.getBufferCopy size

/-- The logical byte stream currently readable from the adapter. -/
def Adapter.bytes (a : Adapter) : List Nat := (catChunks a.deque).drop a.skip

/-- Shape of the skip offset actually maintained by the code: zero, or
strictly inside a non-empty front chunk. -/
def SkipOk (deque : List Chunk) (skip : Nat) : Prop :=
  match deque with
  | [] => skip = 0
  | front :: _ => skip = 0 ∨ skip < front.length

instance instDecSkipOk (d : List Chunk) (k : Nat) : Decidable (SkipOk d k) :=
  match d with
  | [] => inferInstanceAs (Decidable (k = 0))
  | front :: _ => inferInstanceAs (Decidable (k = 0 ∨ k < front.length))

/-- The adapter data invariant: byte accounting plus the skip shape. -/
def AdapterInv (a : Adapter) : Prop :=
  sumLen a.deque = a.size + a.skip ∧ SkipOk a.deque a.skip

instance instDecInv (a : Adapter) : Decidable (AdapterInv a) :=
  inferInstanceAs (Decidable (_ ∧ _))

/-- States reachable from a fresh adapter by the public operations; an
operation that returns the NotEnoughData error leaves the state
unchanged, and a panic aborts the program, so only the Ok outcomes of the
mutating operations produce new states. -/
inductive Reachable : Adapter → Prop
  | new : Reachable Adapter.new
  | push (a : Adapter) (b : GstBuffer) : Reachable a → Reachable (a.push b)
  | clear (a : Adapter) : Reachable a → Reachable a.clear
  | peek (a a' : Adapter) (n : Nat) (v : List Nat) :
      Reachable a → a.peek n = .ok (a', v) → Reachable a'
  | get_buffer (a a' : Adapter) (n : Nat) (b : GstBuffer) :
      Reachable a → a.get_buffer n = .ok (a', b) → Reachable a'
  | flush (a a' : Adapter) (n : Nat) :
      Reachable a → a.flush n = .ok a' → Reachable a'

/-- Bytes of the first buffer of the canonical acceptance scenario. -/
def c8r1 : List Nat := List.range 100

/-- Bytes of the second buffer of the canonical acceptance scenario. -/
def c8r2 : List Nat := (List.range 20).map (· + 100)

/-- Bytes of the third buffer of the canonical acceptance scenario. -/
def c8r3 : List Nat := (List.range 20).map (· + 200)

@[simp] theorem sumLen_nil : sumLen [] = 0 := rfl

@[simp] theorem sumLen_cons (c : Chunk) (l : List Chunk) :
    sumLen (c :: l) = c.length + sumLen l := by
  simp [sumLen]

@[simp] theorem sumLen_append (l1 l2 : List Chunk) :
    sumLen (l1 ++ l2) = sumLen l1 + sumLen l2 := by
  simp [sumLen]

@[simp] theorem catChunks_nil : catChunks [] = [] := rfl

@[simp] theorem catChunks_cons (c : Chunk) (l : List Chunk) :
    catChunks (c :: l) = c ++ catChunks l := rfl

@[simp] theorem length_catChunks (l : List Chunk) :
    (catChunks l).length = sumLen l := by
  induction l with
  | nil => rfl
  | cons c rest ih => simp [ih]

theorem sub?_pos {a b : Nat} (h : b ≤ a) : sub? a b = some (a - b) := by
  simp [sub?, h]

theorem slice?_pos {item : List Nat} {start len : Nat} (h : start + len ≤ item.length) :
    slice? item start len = some ((item.drop start).take len) := by
  simp [slice?, h]

theorem writeRange?_pos {data src : List Nat} {idx : Nat} (h : idx + src.length ≤ data.length) :
    writeRange? data idx src = some (data.take idx ++ src ++ data.drop (idx + src.length)) := by
  simp [writeRange?, h]

theorem drop_append_ge (u v : List Nat) (n : Nat) (h : u.length ≤ n) :
    (u ++ v).drop n = v.drop (n - u.length) := by
  rw [List.drop_append_eq_append_drop, List.drop_eq_nil_of_le h, List.nil_append]

theorem take_append_le (u v : List Nat) (n : Nat) (h : n ≤ u.length) :
    (u ++ v).take n = u.take n := by
  rw [List.take_append_eq_append_take, show n - u.length = 0 by omega]
  simp

theorem take_prefix_append (u v : List Nat) : (u ++ v).take u.length = u := by
  rw [take_append_le u v _ le_rfl, List.take_length]

theorem take_drop_append_inside (item X : List Nat) (skip left : Nat)
    (h : skip + left ≤ item.length) :
    ((item ++ X).drop skip).take left = (item.drop skip).take left := by
  rw [List.drop_append_eq_append_drop, show skip - item.length = 0 by omega,
    List.drop_zero, take_append_le]
  rw [List.length_drop]
  omega

theorem take_drop_append_spill (item X : List Nat) (skip left : Nat)
    (h1 : skip ≤ item.length) (h2 : item.length ≤ skip + left) :
    ((item ++ X).drop skip).take left = item.drop skip ++ X.take (left - (item.length - skip)) := by
  rw [List.drop_append_eq_append_drop, show skip - item.length = 0 by omega,
    List.drop_zero, List.take_append_eq_append_take,
    List.take_of_length_le (by rw [List.length_drop]; omega), List.length_drop]

/-- Functional correctness of copy_data: when the deque holds enough
bytes past skip, skip fits inside the front chunk, and the destination
range fits, the loop completes and writes exactly the next left bytes of
the logical stream into data at position idx. -/
theorem copy_data_spec (deque : List Chunk) :
    ∀ (skip : Nat) (data : List Nat) (idx left : Nat),
      skip + left ≤ sumLen deque →
      skip ≤ headLen deque →
      idx + left ≤ data.length →
      copy_data deque skip data idx left =
        some (data.take idx ++ ((catChunks deque).drop skip).take left ++
          data.drop (idx + left)) := by
  induction deque with
  | nil =>
    intro skip data idx left h1 _h2 h3
    have hs : skip = 0 := by simp at h1; omega
    have hl : left = 0 := by simp at h1; omega
    subst hs hl
    simp [copy_data, List.take_append_drop]
  | cons item rest ih =>
    intro skip data idx left h1 h2 h3
    have h2' : skip ≤ item.length := by simpa [headLen] using h2
    have h1' : skip + left ≤ item.length + sumLen rest := by simpa using h1
    have e1 : sub? item.length skip = some (item.length - skip) := sub?_pos h2'
    by_cases hfit : left ≤ item.length - skip
    · have hmin : min left (item.length - skip) = left := Nat.min_eq_left hfit
      have e2 : slice? item skip left = some ((item.drop skip).take left) :=
        slice?_pos (by omega)
      have hsrclen : ((item.drop skip).take left).length = left := by
        rw [List.length_take, List.length_drop]; omega
      have e3 : writeRange? data idx ((item.drop skip).take left) =
          some (data.take idx ++ (item.drop skip).take left ++ data.drop (idx + left)) := by
        rw [writeRange?_pos (by rw [hsrclen]; omega), hsrclen]
      simp [copy_data, e1, hmin, e2, e3]
      exact (take_drop_append_inside item (catChunks rest) skip left (by omega)).symm
    · have hrem : item.length - skip < left := by omega
      have hmin : min left (item.length - skip) = item.length - skip :=
        Nat.min_eq_right (by omega)
      have hsl : (item.drop skip).length = item.length - skip := by
        rw [List.length_drop]
      have e2 : slice? item skip (item.length - skip) = some (item.drop skip) := by
        rw [slice?_pos (by omega), List.take_of_length_le (by rw [hsl])]
      have e3 : writeRange? data idx (item.drop skip) =
          some (data.take idx ++ item.drop skip ++
            data.drop (idx + (item.length - skip))) := by
        rw [writeRange?_pos (by rw [hsl]; omega), hsl]
      have hne : ¬(left - (item.length - skip) = 0) := by omega
      simp only [copy_data, e1, hmin, e2, e3]
      rw [if_neg hne]
      have hdlen : (data.take idx ++ item.drop skip ++
          data.drop (idx + (item.length - skip))).length = data.length := by
        simp only [List.length_append, List.length_take, List.length_drop]
        omega
      rw [ih 0 _ (idx + (item.length - skip)) (left - (item.length - skip))
        (by simp; omega) (Nat.zero_le _) (by rw [hdlen]; omega)]
      have hplen : (data.take idx ++ item.drop skip).length = idx + (item.length - skip) := by
        rw [List.length_append, List.length_take, hsl]
        omega
      have hpre : (data.take idx ++ item.drop skip ++
            data.drop (idx + (item.length - skip))).take (idx + (item.length - skip)) =
          data.take idx ++ item.drop skip := by
        rw [← hplen, take_prefix_append]
      have hdrop : (data.take idx ++ item.drop skip ++
            data.drop (idx + (item.length - skip))).drop
            (idx + (item.length - skip) + (left - (item.length - skip))) =
          data.drop (idx + left) := by
        rw [drop_append_ge _ _ _ (by rw [hplen]; omega), hplen, List.drop_drop]
        congr 1
        omega
      have hmid : ((catChunks (item :: rest)).drop skip).take left =
          item.drop skip ++ (catChunks rest).take (left - (item.length - skip)) := by
        rw [catChunks_cons]
        exact take_drop_append_spill item (catChunks rest) skip left h2' (by omega)
      rw [hpre, hdrop, hmid, List.drop_zero]
      simp [List.append_assoc]
theorem sub?_eq_some {a b c : Nat} (h : sub? a b = some c) : b ≤ a ∧ c = a - b := by
  unfold sub? at h
  split at h <;> simp_all

theorem skipOk_zero (d : List Chunk) : SkipOk d 0 := by
  cases d <;> simp [SkipOk]

theorem skipOk_le {d : List Chunk} {k : Nat} (h : SkipOk d k) : k ≤ headLen d := by
  cases d with
  | nil => simp [SkipOk] at h; simp [headLen, h]
  | cons front rest =>
    rcases (h : k = 0 ∨ k < front.length) with h' | h' <;> simp [headLen] <;> omega

/-- Writing through copy_data into a zero-length destination slice panics
whenever a positive number of bytes is requested, whatever the deque
holds: either some chunk yields a positive copy (out-of-bounds write), or
the final assertion that all bytes were copied fails. -/
theorem copy_data_nil_dest (deque : List Chunk) :
    ∀ (skip left : Nat), left ≠ 0 → copy_data deque skip [] 0 left = none := by
  induction deque with
  | nil =>
    intro skip left h
    simp [copy_data, h]
  | cons item rest ih =>
    intro skip left h
    rcases hs : sub? item.length skip with _ | rem
    · simp [copy_data, hs]
    · obtain ⟨hba, hrem⟩ := sub?_eq_some hs
      subst hrem
      by_cases hc : min left (item.length - skip) = 0
      · have e2 : slice? item skip 0 = some [] := by
          rw [slice?_pos (by omega)]
          simp
        have e3 : writeRange? [] 0 ([] : List Nat) = some [] := by
          simp [writeRange?]
        simp [copy_data, hs, hc, e2, e3, h]
        simpa using ih 0 left h
      · have e2 : slice? item skip (min left (item.length - skip)) =
            some ((item.drop skip).take (min left (item.length - skip))) :=
          slice?_pos (by have := Nat.min_le_right left (item.length - skip); omega)
        have hlen : ((item.drop skip).take (min left (item.length - skip))).length =
            min left (item.length - skip) := by
          rw [List.length_take, List.length_drop]
          exact Nat.min_eq_left (Nat.min_le_right _ _)
        have e3 : writeRange? [] 0 ((item.drop skip).take (min left (item.length - skip))) =
            none := by
          unfold writeRange?
          rw [if_neg]
          rw [hlen]
          simpa using hc
        simp [copy_data, hs, e2, e3]

/-- The flush loop, started on a state satisfying the adapter invariant
with at most the available number of bytes to discard, completes without
a panic; the result satisfies the invariant again, the available count
drops by exactly the discarded count, the logical stream loses exactly
its first left bytes, and an exact drain ends with skip equal to 0. -/
theorem flushLoop_spec (deque : List Chunk) :
    ∀ (size skip left : Nat),
      sumLen deque = size + skip →
      SkipOk deque skip →
      left ≤ size →
      ∃ d' s' k',
        flushLoop deque size skip left = some (d', s', k') ∧
        s' = size - left ∧
        sumLen d' = s' + k' ∧
        SkipOk d' k' ∧
        (catChunks d').drop k' = ((catChunks deque).drop skip).drop left ∧
        (left = size → k' = 0) := by
  induction deque with
  | nil =>
    intro size skip left h1 h2 h3
    have hs : skip = 0 := h2
    have hsize : size = 0 := by simp at h1; omega
    have hleft : left = 0 := by omega
    subst hs hsize hleft
    exact ⟨[], 0, 0, by simp [flushLoop], rfl, by simp, h2, by simp, fun _ => rfl⟩
  | cons front rest ih =>
    intro size skip left h1 h2 h3
    have h1' : front.length + sumLen rest = size + skip := by simpa using h1
    have hsk : skip ≤ front.length := skipOk_le h2
    by_cases hl0 : left = 0
    · subst hl0
      refine ⟨front :: rest, size, skip, by simp [flushLoop], by omega,
        by simpa using h1, h2, by simp, ?_⟩
      intro hls
      rcases (h2 : skip = 0 ∨ skip < front.length) with h' | h'
      · exact h'
      · omega
    · have e1 : sub? front.length skip = some (front.length - skip) := sub?_pos hsk
      by_cases hf : front.length - skip ≤ left
      · have e2 : sub? size (front.length - skip) =
            some (size - (front.length - skip)) := sub?_pos (by omega)
        obtain ⟨d', s', k', heq, hs', hsum, hsk', hstream, hexact⟩ :=
          ih (size - (front.length - skip)) 0 (left - (front.length - skip))
            (by omega) (skipOk_zero rest) (by omega)
        refine ⟨d', s', k', ?_, by omega, hsum, hsk', ?_, ?_⟩
        · simp [flushLoop, hl0, e1, e2, hf]
          exact heq
        · rw [hstream, List.drop_zero, catChunks_cons, List.drop_drop,
            drop_append_ge _ _ _ (by omega)]
          congr 1
          omega
        · intro hls
          exact hexact (by omega)
      · have e2 : sub? size left = some (size - left) := sub?_pos h3
        refine ⟨front :: rest, size - left, skip + left, ?_, rfl, ?_, ?_, ?_, ?_⟩
        · simp [flushLoop, hl0, e1, e2, hf]
        · simp only [sumLen_cons]
          omega
        · exact Or.inr (by omega)
        · rw [List.drop_drop]
        · intro hls
          omega
/-- The fueled transcription of the flush loop agrees with the
structural one as soon as the fuel exceeds the queue length: the loop
never runs more iterations than one per queued chunk plus the final
test, even in the presence of zero-length chunks. -/
theorem flushLoopF_eq (deque : List Chunk) :
    ∀ (fuel size skip left : Nat), deque.length < fuel →
      flushLoopF fuel deque size skip left = flushLoop deque size skip left := by
  induction deque with
  | nil =>
    intro fuel size skip left hf
    cases fuel with
    | zero => exact absurd hf (Nat.not_lt_zero _)
    | succ n => rfl
  | cons front rest ih =>
    intro fuel size skip left hf
    cases fuel with
    | zero => exact absurd hf (Nat.not_lt_zero _)
    | succ n =>
      by_cases hl0 : left = 0
      · simp [flushLoopF, flushLoop, hl0]
      · rcases hs : sub? front.length skip with _ | fs
        · simp [flushLoopF, flushLoop, hl0, hs]
        · by_cases hfs : fs ≤ left
          · rcases hs2 : sub? size fs with _ | s2
            · simp [flushLoopF, flushLoop, hl0, hs, hfs, hs2]
            · simp only [flushLoopF, flushLoop, if_neg hl0, hs, if_pos hfs, hs2]
              exact ih n s2 0 (left - fs) (by simp at hf; omega)
          · simp [flushLoopF, flushLoop, hl0, hs, hfs]

/-- Adapter-level flush specification: under the invariant, flushing at
most the available bytes succeeds, drops exactly N bytes from the front
of the logical stream, lowers size by N, keeps scratch, preserves the
invariant, and an exact drain zeroes skip and leaves only empty chunks. -/
theorem flush_ok (a : Adapter) (N : Nat) (hInv : AdapterInv a) (hN : N ≤ a.size) :
    ∃ a', a.flush N = .ok a' ∧
      a'.size = a.size - N ∧
      a'.bytes = a.bytes.drop N ∧
      a'.scratch = a.scratch ∧
      AdapterInv a' ∧
      (N = a.size → a'.skip = 0 ∧ sumLen a'.deque = 0) := by
  obtain ⟨h1, h2⟩ := hInv
  by_cases h0 : N = 0
  · subst h0
    have hskip0 : a.size = 0 → a.skip = 0 := by
      intro hsz
      cases hdq : a.deque with
      | nil => rw [hdq] at h2; exact h2
      | cons f r =>
        rw [hdq] at h2
        rcases (h2 : a.skip = 0 ∨ a.skip < f.length) with h' | h'
        · exact h'
        · exfalso
          have hsl : sumLen (f :: r) = a.size + a.skip := by rw [← hdq]; exact h1
          simp at hsl
          omega
    refine ⟨a, by simp [Adapter.flush], by omega, by simp [Adapter.bytes], rfl,
      ⟨h1, h2⟩, ?_⟩
    intro hNs
    have hsz : a.size = 0 := hNs.symm
    have hk := hskip0 hsz
    exact ⟨hk, by omega⟩
  · have hlt : ¬ (a.size < N) := by omega
    obtain ⟨d', s', k', heq, hs', hsum, hsk', hstream, hexact⟩ :=
      flushLoop_spec a.deque a.size a.skip N h1 h2 hN
    refine ⟨{ a with deque := d', size := s', skip := k' }, ?_, hs', ?_, rfl,
      ⟨hsum, hsk'⟩, ?_⟩
    · simp [Adapter.flush, hlt, h0, heq]
    · show (catChunks d').drop k' = ((catChunks a.deque).drop a.skip).drop N
      exact hstream
    · intro hNs
      have hk := hexact hNs
      refine ⟨hk, ?_⟩
      show sumLen d' = 0
      omega

/-- A successful flush implies the request was within the available
bytes. -/
theorem flush_ok_le {a a' : Adapter} {N : Nat} (h : a.flush N = .ok a') :
    N ≤ a.size := by
  by_cases hlt : a.size < N
  · unfold Adapter.flush at h
    rw [if_pos hlt] at h
    cases h
  · omega

/-- A successful flush preserves the adapter invariant. -/
theorem inv_flush {a a' : Adapter} {N : Nat} (hInv : AdapterInv a)
    (h : a.flush N = .ok a') : AdapterInv a' := by
  obtain ⟨a'', heq, _, _, _, hInv'', _⟩ := flush_ok a N hInv (flush_ok_le h)
  have he := heq.symm.trans h
  injection he with he'
  rw [← he']
  exact hInv''

/-- Every Ok outcome of peek leaves deque, size and skip unchanged (only
scratch may change, on the slow path). -/
theorem peek_ok_state {a a' : Adapter} {n : Nat} {v : List Nat}
    (h : a.peek n = .ok (a', v)) :
    a'.deque = a.deque ∧ a'.size = a.size ∧ a'.skip = a.skip := by
  unfold Adapter.peek Adapter.peekScratch at h
  repeat' split at h
  all_goals cases h
  all_goals simp

/-- Every Ok outcome of get_buffer either left the state unchanged (the
size-0 case) or is the Ok outcome of the internal flush call. -/
theorem get_buffer_ok_flush {a a' : Adapter} {n : Nat} {b : GstBuffer}
    (h : a.get_buffer n = .ok (a', b)) :
    a' = a ∨ a.flush n = .ok a' := by
  unfold Adapter.get_buffer Adapter.getBufferCopy at h
  repeat' split at h
  all_goals cases h
  all_goals simp_all

/-- The adapter invariant holds in every reachable state. -/
theorem inv_of_reachable {a : Adapter} (h : Reachable a) : AdapterInv a := by
  induction h with
  | new => exact ⟨rfl, rfl⟩
  | push a b _ ih =>
    obtain ⟨h1, h2⟩ := ih
    constructor
    · show sumLen (a.deque ++ [b.data]) = (a.size + b.data.length) + a.skip
      simp
      omega
    · show SkipOk (a.deque ++ [b.data]) a.skip
      cases hdq : a.deque with
      | nil =>
        have hs : a.skip = 0 := by rw [hdq] at h2; exact h2
        rw [hs]
        exact skipOk_zero _
      | cons f r =>
        rw [hdq] at h2
        exact (h2 : a.skip = 0 ∨ a.skip < f.length)
  | clear a _ _ => exact ⟨rfl, rfl⟩
  | peek a a' n v _ heq ih =>
    obtain ⟨hd, hs, hk⟩ := peek_ok_state heq
    obtain ⟨h1, h2⟩ := ih
    exact ⟨by rw [hd, hs, hk]; exact h1, by rw [hd, hk]; exact h2⟩
  | get_buffer a a' n b _ heq ih =>
    rcases get_buffer_ok_flush heq with rfl | hf
    · exact ih
    · exact inv_flush ih hf
  | flush a a' n _ heq ih => exact inv_flush ih heq
/-- The readable stream is exactly the size bytes the adapter accounts
for, under the invariant. -/
theorem length_bytes (a : Adapter) : a.bytes.length = sumLen a.deque - a.skip := by
  simp [Adapter.bytes]

/-- A queue whose total byte count is zero holds only zero-length
chunks. -/
theorem sumLen_eq_zero {l : List Chunk} (h : sumLen l = 0) :
    ∀ c ∈ l, c.length = 0 := by
  intro c hc
  unfold sumLen at h
  rw [List.sum_eq_zero_iff] at h
  exact h _ (List.mem_map_of_mem _ hc)

/-- Within the front chunk, the stream prefix is the sub-range of that
chunk starting at skip. -/
theorem bytes_take_front (a : Adapter) (front : Chunk) (rest : List Chunk) (N : Nat)
    (hq : a.deque = front :: rest) (hfit : a.skip + N ≤ front.length) :
    a.bytes.take N = (front.drop a.skip).take N := by
  unfold Adapter.bytes
  rw [hq, catChunks_cons]
  exact take_drop_append_inside _ _ _ _ hfit

/-- peek_into succeeds under the invariant whenever the destination is
not longer than the available bytes, filling it with the stream prefix. -/
theorem peek_into_ok (a : Adapter) (data : List Nat) (hInv : AdapterInv a)
    (hN : data.length ≤ a.size) :
    a.peek_into data = .ok (a.bytes.take data.length) := by
  obtain ⟨h1, h2⟩ := hInv
  by_cases h0 : data.length = 0
  · have hd : data = [] := List.length_eq_zero.mp h0
    subst hd
    simp [Adapter.peek_into, Adapter.bytes]
  · have hlt : ¬ (a.size < data.length) := by omega
    have hc := copy_data_spec a.deque a.skip data 0 data.length
      (by omega) (skipOk_le h2) (by omega)
    simp [Adapter.peek_into, hlt, h0, hc, Adapter.bytes]

/-- The peek fast path: a request of positive size that fits inside the
front chunk past skip returns the sub-range view of that chunk and leaves
the whole adapter (scratch included) unchanged. -/
theorem peek_fast (a : Adapter) (front : Chunk) (rest : List Chunk) (N : Nat)
    (hInv : AdapterInv a) (hq : a.deque = front :: rest) (h0 : 0 < N)
    (hfit : a.skip + N ≤ front.length) :
    a.peek N = .ok (a, (front.drop a.skip).take N) := by
  obtain ⟨h1, h2⟩ := hInv
  have hsum : front.length + sumLen rest = a.size + a.skip := by
    rw [hq] at h1
    simpa using h1
  have hlt : ¬ (a.size < N) := by omega
  have e1 : sub? front.length a.skip = some (front.length - a.skip) :=
    sub?_pos (by omega)
  have e2 : slice? front a.skip N = some ((front.drop a.skip).take N) :=
    slice?_pos (by omega)
  have hcond : N ≤ front.length - a.skip := by omega
  simp [Adapter.peek, hlt, show ¬ N = 0 by omega, hq, e1, e2, hcond]

/-- The get_buffer fast path: the result is the copy_region sub-buffer
of the front chunk (shared storage) and the state advances by the
internal flush. -/
theorem get_buffer_fast (a : Adapter) (front : Chunk) (rest : List Chunk) (N : Nat)
    (hInv : AdapterInv a) (hq : a.deque = front :: rest) (h0 : 0 < N)
    (hfit : a.skip + N ≤ front.length) :
    ∃ a', a.get_buffer N = .ok (a', ⟨(front.drop a.skip).take N, true⟩) ∧
      a'.size = a.size - N ∧ a'.bytes = a.bytes.drop N ∧ a'.scratch = a.scratch ∧
      AdapterInv a' := by
  obtain ⟨h1, h2⟩ := hInv
  have hsum : front.length + sumLen rest = a.size + a.skip := by
    rw [hq] at h1
    simpa using h1
  have hN : N ≤ a.size := by omega
  have hlt : ¬ (a.size < N) := by omega
  have e1 : sub? front.length a.skip = some (front.length - a.skip) :=
    sub?_pos (by omega)
  have ecr : copy_region front a.skip N = some ⟨(front.drop a.skip).take N, true⟩ := by
    simp [copy_region, hfit]
  obtain ⟨a', hfl, hsz, hb, hscr, hinv', _⟩ := flush_ok a N ⟨h1, h2⟩ hN
  refine ⟨a', ?_, hsz, hb, hscr, hinv'⟩
  have hcond : N ≤ front.length - a.skip := by omega
  simp [Adapter.get_buffer, hlt, show ¬ N = 0 by omega, hq, e1, hcond, ecr, hfl]

/-- get_buffer succeeds under the invariant for every request within the
available bytes, returning exactly the first N stream bytes and
advancing the stream by N. -/
theorem get_buffer_ok (a : Adapter) (N : Nat) (hInv : AdapterInv a) (hN : N ≤ a.size) :
    ∃ a' b, a.get_buffer N = .ok (a', b) ∧ b.data = a.bytes.take N ∧
      b.data.length = N ∧ a'.size = a.size - N ∧ a'.bytes = a.bytes.drop N := by
  obtain ⟨h1, h2⟩ := hInv
  have hlb : a.bytes.length = a.size := by rw [length_bytes]; omega
  by_cases h0 : N = 0
  · subst h0
    exact ⟨a, buffer_new, by simp [Adapter.get_buffer], by simp [buffer_new],
      by simp [buffer_new], by omega, by simp⟩
  · cases hq : a.deque with
    | nil =>
      exfalso
      rw [hq] at h1
      simp at h1
      omega
    | cons front rest =>
      have h2' : a.skip ≤ front.length := by rw [hq] at h2; exact skipOk_le h2
      by_cases hc : N ≤ front.length - a.skip
      · obtain ⟨a', hgb, hsz, hb, _, _⟩ :=
          get_buffer_fast a front rest N ⟨h1, h2⟩ hq (by omega) (by omega)
        refine ⟨a', _, hgb, ?_, ?_, hsz, hb⟩
        · show (front.drop a.skip).take N = a.bytes.take N
          exact (bytes_take_front a front rest N hq (by omega)).symm
        · show ((front.drop a.skip).take N).length = N
          rw [List.length_take, List.length_drop]
          omega
      · have hlt : ¬ (a.size < N) := by omega
        have hcd := copy_data_spec a.deque a.skip (List.replicate N 0) 0 N
          (by omega) (skipOk_le h2) (by simp)
        have hfill : (List.replicate N (0 : Nat)).take 0 ++
            ((catChunks a.deque).drop a.skip).take N ++
            (List.replicate N (0 : Nat)).drop (0 + N) = a.bytes.take N := by
          simp [Adapter.bytes]
        rw [hfill] at hcd
        obtain ⟨a', hfl, hsz, hb, _, _, _⟩ := flush_ok a N ⟨h1, h2⟩ hN
        refine ⟨a', ⟨a.bytes.take N, false⟩, ?_, rfl, ?_, hsz, hb⟩
        · have e1 : sub? front.length a.skip = some (front.length - a.skip) :=
            sub?_pos h2'
          rw [hq] at hcd
          simp [Adapter.get_buffer, Adapter.getBufferCopy, hlt, h0, hq, e1, hc,
            hcd, hfl]
        · show (a.bytes.take N).length = N
          rw [List.length_take, hlb]
          exact Nat.min_eq_left hN
/-- Claim C1: in every adapter state reachable by any sequence of new,
push, clear, peek_into, peek, get_buffer and flush operations, the
accounting equation holds after every operation: total_available (the
size field, returned by get_available) equals the sum of the lengths of
all chunks in the queue minus skip. -/
theorem C1_accounting_invariant (a : Adapter) (h : Reachable a) :
    a.skip ≤ sumLen a.deque ∧ a.get_available = sumLen a.deque - a.skip := by
  obtain ⟨h1, _⟩ := inv_of_reachable h
  refine ⟨by omega, ?_⟩
  show a.size = sumLen a.deque - a.skip
  omega

/-- Witness for C1 at the concrete reachable state obtained by pushing a
two-byte buffer onto a fresh adapter. -/
theorem C1_accounting_invariant_witness :
    (Adapter.new.push ⟨[1, 2], false⟩).skip ≤
        sumLen (Adapter.new.push ⟨[1, 2], false⟩).deque ∧
      (Adapter.new.push ⟨[1, 2], false⟩).get_available =
        sumLen (Adapter.new.push ⟨[1, 2], false⟩).deque -
          (Adapter.new.push ⟨[1, 2], false⟩).skip :=
  C1_accounting_invariant _ (Reachable.push _ _ Reachable.new)

/-- Claim C2 (code bug): on the reachable state holding chunks [10, 11]
and [12] with 3 bytes available, a spanning peek of 3 bytes panics
instead of returning the 3-byte view, because the slow path truncates
scratch to length 0 and only reserves capacity before copy_data writes
through it; peek_into on a correctly sized destination shows the intended
assembled bytes [10, 11, 12]. -/
theorem C2_peek_slow_path_panics :
    Reachable ((Adapter.new.push ⟨[10, 11], false⟩).push ⟨[12], false⟩) ∧
    ((Adapter.new.push ⟨[10, 11], false⟩).push ⟨[12], false⟩).get_available = 3 ∧
    ((Adapter.new.push ⟨[10, 11], false⟩).push ⟨[12], false⟩).peek 3 = .panic ∧
    ((Adapter.new.push ⟨[10, 11], false⟩).push ⟨[12], false⟩).peek_into [0, 0, 0] =
      .ok [10, 11, 12] :=
  ⟨Reachable.push _ _ (Reachable.push _ _ Reachable.new), by decide, by decide,
    by decide⟩

/-- Claim C3 (code bug): a peek request for exactly the available byte
count must succeed, but on the reachable state holding chunks [1] and
[2] with 2 bytes available, peek 2 spans both chunks and panics in the
scratch slow path rather than succeeding. -/
theorem C3_exact_available_peek_panics :
    Reachable ((Adapter.new.push ⟨[1], false⟩).push ⟨[2], false⟩) ∧
    ((Adapter.new.push ⟨[1], false⟩).push ⟨[2], false⟩).get_available = 2 ∧
    ((Adapter.new.push ⟨[1], false⟩).push ⟨[2], false⟩).peek 2 = .panic :=
  ⟨Reachable.push _ _ (Reachable.push _ _ Reachable.new), by decide, by decide⟩

/-- Claim C4 (code bug): get_buffer 3 on the state holding chunks [1, 2]
and [3] succeeds with the owned buffer [1, 2, 3] and consumes 3 bytes,
but peek 3 at the same state panics, so get_buffer is not observationally
equivalent to peek followed by flush: peek returns nothing whose content
the returned buffer could equal. -/
theorem C4_get_buffer_not_equiv_to_peek :
    Reachable ((Adapter.new.push ⟨[1, 2], false⟩).push ⟨[3], false⟩) ∧
    ((Adapter.new.push ⟨[1, 2], false⟩).push ⟨[3], false⟩).get_buffer 3 =
      .ok (⟨[], 0, 0, []⟩, ⟨[1, 2, 3], false⟩) ∧
    ((Adapter.new.push ⟨[1, 2], false⟩).push ⟨[3], false⟩).peek 3 = .panic :=
  ⟨Reachable.push _ _ (Reachable.push _ _ Reachable.new), by decide, by decide⟩

/-- Claim C5 counterexample: after pushing a one-byte buffer and a
zero-length buffer, flushing exactly total_available = 1 byte succeeds
but leaves the zero-length chunk in the queue, so the exact-drain case
does not leave the queue empty. -/
theorem C5_counterexample :
    ((Adapter.new.push ⟨[7], false⟩).push ⟨[], false⟩).get_available = 1 ∧
    ((Adapter.new.push ⟨[7], false⟩).push ⟨[], false⟩).flush 1 =
      .ok ⟨[[]], 0, 0, []⟩ ∧
    ([[]] : List Chunk) ≠ [] :=
  ⟨by decide, by decide, by decide⟩

/-- Claim C5 (amended): for every adapter state satisfying the data
invariant (every reachable state does) and every N at most
total_available, flush N succeeds through the per-chunk loop, drops
exactly the first N bytes of the logical stream, lowers availability by
exactly N, and in the exact-drain case N = total_available leaves
skip = 0 and only zero-length chunks in the queue (hence an empty queue
whenever no zero-length buffer is queued). -/
theorem C5_flush_advances (a : Adapter) (N : Nat) (hInv : AdapterInv a)
    (hN : N ≤ a.get_available) :
    ∃ a', a.flush N = .ok a' ∧
      a'.bytes = a.bytes.drop N ∧
      a'.get_available = a.get_available - N ∧
      (N = a.get_available → a'.skip = 0 ∧ ∀ c ∈ a'.deque, c.length = 0) := by
  obtain ⟨a', hfl, hsz, hb, _, _, hex⟩ := flush_ok a N hInv hN
  refine ⟨a', hfl, hb, hsz, ?_⟩
  intro hNs
  obtain ⟨hk, hz⟩ := hex hNs
  exact ⟨hk, sumLen_eq_zero hz⟩

/-- Witness for the amended C5 on a concrete two-chunk state. -/
theorem C5_flush_advances_witness :
    AdapterInv ⟨[[1, 2], [3]], 3, 0, []⟩ ∧
    (2 : Nat) ≤ (⟨[[1, 2], [3]], 3, 0, []⟩ : Adapter).get_available ∧
    (∃ a', (⟨[[1, 2], [3]], 3, 0, []⟩ : Adapter).flush 2 = .ok a' ∧
      a'.bytes = (⟨[[1, 2], [3]], 3, 0, []⟩ : Adapter).bytes.drop 2 ∧
      a'.get_available = (⟨[[1, 2], [3]], 3, 0, []⟩ : Adapter).get_available - 2 ∧
      (2 = (⟨[[1, 2], [3]], 3, 0, []⟩ : Adapter).get_available →
        a'.skip = 0 ∧ ∀ c ∈ a'.deque, c.length = 0)) :=
  ⟨by decide, by decide, C5_flush_advances _ 2 (by decide) (by decide)⟩

/-- Claim C6 counterexample: pushing a zero-length buffer onto a fresh
adapter is legal and reaches a state whose queue is non-empty with a
zero-length front chunk and skip = 0, so the claimed strict bound
skip < front length fails. -/
theorem C6_counterexample :
    Reachable (Adapter.new.push ⟨[], false⟩) ∧
    (Adapter.new.push ⟨[], false⟩).deque = [[]] ∧
    (Adapter.new.push ⟨[], false⟩).skip = 0 ∧
    ¬ (Adapter.new.push ⟨[], false⟩).skip < ([] : Chunk).length :=
  ⟨Reachable.push _ _ Reachable.new, by decide, by decide, by decide⟩

/-- Claim C6 (amended): in every reachable state, skip = 0 whenever the
queue is empty, and for a non-empty queue skip is either 0 or strictly
below the front chunk length; in particular skip never exceeds the front
chunk length, and the claimed strict bound can fail only at skip = 0
with a zero-length front chunk. -/
theorem C6_skip_invariant (a : Adapter) (h : Reachable a) :
    (a.deque = [] → a.skip = 0) ∧
    (a.deque ≠ [] → a.skip = 0 ∨ a.skip < headLen a.deque) := by
  obtain ⟨_, h2⟩ := inv_of_reachable h
  constructor
  · intro hq
    rw [hq] at h2
    exact h2
  · intro hq
    cases hd : a.deque with
    | nil => exact absurd hd hq
    | cons f r =>
      rw [hd] at h2
      rcases (h2 : a.skip = 0 ∨ a.skip < f.length) with h' | h'
      · exact Or.inl h'
      · exact Or.inr h'

/-- Witness for the amended C6 at a concrete reachable state. -/
theorem C6_skip_invariant_witness :
    ((Adapter.new.push ⟨[8, 9], false⟩).deque = [] →
      (Adapter.new.push ⟨[8, 9], false⟩).skip = 0) ∧
    ((Adapter.new.push ⟨[8, 9], false⟩).deque ≠ [] →
      (Adapter.new.push ⟨[8, 9], false⟩).skip = 0 ∨
        (Adapter.new.push ⟨[8, 9], false⟩).skip <
          headLen (Adapter.new.push ⟨[8, 9], false⟩).deque) :=
  C6_skip_invariant _ (Reachable.push _ _ Reachable.new)

/-- Claim C7: when a positive request of N bytes lies entirely within
the front chunk past skip, peek returns the sub-range view of that chunk
at offsets skip to skip + N with the adapter (scratch included)
untouched, and get_buffer returns the copy_region sub-buffer of that
chunk, sharing its backing storage (shared flag), then advances the read
position so that availability drops by exactly N. -/
theorem C7_zero_copy_fast_path (a : Adapter) (front : Chunk) (rest : List Chunk)
    (N : Nat) (h : Reachable a) (hq : a.deque = front :: rest) (h0 : 0 < N)
    (hfit : a.skip + N ≤ front.length) :
    a.peek N = .ok (a, (front.drop a.skip).take N) ∧
    ∃ a', a.get_buffer N = .ok (a', ⟨(front.drop a.skip).take N, true⟩) ∧
      a'.get_available = a.get_available - N := by
  have hInv := inv_of_reachable h
  refine ⟨peek_fast a front rest N hInv hq h0 hfit, ?_⟩
  obtain ⟨a', hgb, hsz, _, _, _⟩ := get_buffer_fast a front rest N hInv hq h0 hfit
  exact ⟨a', hgb, hsz⟩

/-- Witness for C7 on the single-chunk state [4, 5, 6] with N = 2. -/
theorem C7_zero_copy_fast_path_witness :
    (Adapter.new.push ⟨[4, 5, 6], false⟩).deque = [4, 5, 6] :: [] ∧
    (0 : Nat) < 2 ∧
    (Adapter.new.push ⟨[4, 5, 6], false⟩).skip + 2 ≤ ([4, 5, 6] : Chunk).length ∧
    ((Adapter.new.push ⟨[4, 5, 6], false⟩).peek 2 =
      .ok (Adapter.new.push ⟨[4, 5, 6], false⟩,
        (([4, 5, 6] : Chunk).drop (Adapter.new.push ⟨[4, 5, 6], false⟩).skip).take 2) ∧
    ∃ a', (Adapter.new.push ⟨[4, 5, 6], false⟩).get_buffer 2 =
        .ok (a', ⟨(([4, 5, 6] : Chunk).drop
          (Adapter.new.push ⟨[4, 5, 6], false⟩).skip).take 2, true⟩) ∧
      a'.get_available = (Adapter.new.push ⟨[4, 5, 6], false⟩).get_available - 2) :=
  ⟨by decide, by decide, by decide,
    C7_zero_copy_fast_path _ [4, 5, 6] [] 2 (Reachable.push _ _ Reachable.new)
      (by decide) (by decide) (by decide)⟩

/-- Claim C8: the canonical scenario: pushing 100 then 20 bytes gives
120 available; get_buffer 20 returns the first 20 pushed bytes and
leaves 100; get_buffer 90 leaves 10; pushing 20 more bytes gives 30;
get_buffer 20 then get_buffer 10 drain availability to 0; and a further
get_buffer 1 fails with NotEnoughData. -/
theorem C8_canonical_scenario :
    ((Adapter.new.push ⟨c8r1, false⟩).push ⟨c8r2, false⟩).get_available = 120 ∧
    ((Adapter.new.push ⟨c8r1, false⟩).push ⟨c8r2, false⟩).get_buffer 20 =
      .ok (⟨[c8r1, c8r2], 100, 20, []⟩, ⟨(c8r1 ++ c8r2).take 20, true⟩) ∧
    (⟨[c8r1, c8r2], 100, 20, []⟩ : Adapter).get_available = 100 ∧
    ((c8r1 ++ c8r2).take 20).length = 20 ∧
    (⟨[c8r1, c8r2], 100, 20, []⟩ : Adapter).get_buffer 90 =
      .ok (⟨[c8r2], 10, 10, []⟩, ⟨c8r1.drop 20 ++ c8r2.take 10, false⟩) ∧
    (⟨[c8r2], 10, 10, []⟩ : Adapter).get_available = 10 ∧
    (c8r1.drop 20 ++ c8r2.take 10).length = 90 ∧
    (⟨[c8r2], 10, 10, []⟩ : Adapter).push ⟨c8r3, false⟩ =
      ⟨[c8r2, c8r3], 30, 10, []⟩ ∧
    (⟨[c8r2, c8r3], 30, 10, []⟩ : Adapter).get_available = 30 ∧
    (⟨[c8r2, c8r3], 30, 10, []⟩ : Adapter).get_buffer 20 =
      .ok (⟨[c8r3], 10, 10, []⟩, ⟨c8r2.drop 10 ++ c8r3.take 10, false⟩) ∧
    (c8r2.drop 10 ++ c8r3.take 10).length = 20 ∧
    (⟨[c8r3], 10, 10, []⟩ : Adapter).get_buffer 10 =
      .ok (⟨[], 0, 0, []⟩, ⟨c8r3.drop 10, true⟩) ∧
    (⟨[], 0, 0, []⟩ : Adapter).get_available = 0 ∧
    (c8r3.drop 10).length = 10 ∧
    (⟨[], 0, 0, []⟩ : Adapter).get_buffer 1 = .err .NotEnoughData := by
  decide

/-- Claim C9: under the accounting invariant with N at most the
available bytes, the flush loop terminates: within queue length plus one
iterations the literal step-counted loop reaches the final result, and
that result is not a panic; this holds also when the queue contains
zero-length chunks, whose removal does not decrease the remaining
count. -/
theorem C9_flush_loop_terminates (a : Adapter) (N : Nat)
    (hInv : AdapterInv a) (hN : N ≤ a.size) :
    flushLoopF (a.deque.length + 1) a.deque a.size a.skip N =
      flushLoop a.deque a.size a.skip N ∧
    flushLoopF (a.deque.length + 1) a.deque a.size a.skip N ≠ none := by
  obtain ⟨h1, h2⟩ := hInv
  have he := flushLoopF_eq a.deque (a.deque.length + 1) a.size a.skip N (by omega)
  refine ⟨he, ?_⟩
  obtain ⟨d', s', k', heq, _⟩ := flushLoop_spec a.deque a.size a.skip N h1 h2 hN
  rw [he, heq]
  simp

/-- Witness for C9 on a queue that starts with a zero-length chunk. -/
theorem C9_flush_loop_terminates_witness :
    AdapterInv ⟨[[], [5]], 1, 0, []⟩ ∧
    (1 : Nat) ≤ (⟨[[], [5]], 1, 0, []⟩ : Adapter).size ∧
    (flushLoopF ((⟨[[], [5]], 1, 0, []⟩ : Adapter).deque.length + 1)
        (⟨[[], [5]], 1, 0, []⟩ : Adapter).deque (⟨[[], [5]], 1, 0, []⟩ : Adapter).size
        (⟨[[], [5]], 1, 0, []⟩ : Adapter).skip 1 =
      flushLoop (⟨[[], [5]], 1, 0, []⟩ : Adapter).deque
        (⟨[[], [5]], 1, 0, []⟩ : Adapter).size
        (⟨[[], [5]], 1, 0, []⟩ : Adapter).skip 1 ∧
    flushLoopF ((⟨[[], [5]], 1, 0, []⟩ : Adapter).deque.length + 1)
        (⟨[[], [5]], 1, 0, []⟩ : Adapter).deque (⟨[[], [5]], 1, 0, []⟩ : Adapter).size
        (⟨[[], [5]], 1, 0, []⟩ : Adapter).skip 1 ≠ none) :=
  ⟨by decide, by decide, C9_flush_loop_terminates _ 1 (by decide) (by decide)⟩

/-- Claim C10: in every reachable state skip is at most the front chunk
length, so the unchecked subtraction of skip from the front length in
peek, get_buffer, flush and copy_data cannot underflow; and for any
request N at most total_available, flush does not panic (the front
unwrap in its loop always finds a chunk), get_buffer does not panic (its
internal flush unwraps succeed), and peek_into on an N-byte destination
does not panic. -/
theorem C10_internal_operations_safe (a : Adapter) (N : Nat) (data : List Nat)
    (h : Reachable a) (hN : N ≤ a.get_available) (hdata : data.length = N) :
    (a.deque ≠ [] → sub? (headLen a.deque) a.skip ≠ none) ∧
    a.flush N ≠ .panic ∧
    a.get_buffer N ≠ .panic ∧
    a.peek_into data ≠ .panic := by
  have hInv := inv_of_reachable h
  obtain ⟨h1, h2⟩ := hInv
  refine ⟨?_, ?_, ?_, ?_⟩
  · intro _
    rw [sub?_pos (skipOk_le h2)]
    simp
  · obtain ⟨a', heq, _⟩ := flush_ok a N ⟨h1, h2⟩ hN
    rw [heq]
    simp
  · obtain ⟨a', b, heq, _⟩ := get_buffer_ok a N ⟨h1, h2⟩ hN
    rw [heq]
    simp
  · have hN' : N ≤ a.size := hN
    rw [peek_into_ok a data ⟨h1, h2⟩ (by omega)]
    simp

/-- Witness for C10 on the one-chunk reachable state [9] with N = 1. -/
theorem C10_internal_operations_safe_witness :
    ((Adapter.new.push ⟨[9], false⟩).deque ≠ [] →
      sub? (headLen (Adapter.new.push ⟨[9], false⟩).deque)
        (Adapter.new.push ⟨[9], false⟩).skip ≠ none) ∧
    (Adapter.new.push ⟨[9], false⟩).flush 1 ≠ .panic ∧
    (Adapter.new.push ⟨[9], false⟩).get_buffer 1 ≠ .panic ∧
    (Adapter.new.push ⟨[9], false⟩).peek_into [0] ≠ .panic :=
  C10_internal_operations_safe _ 1 [0] (Reachable.push _ _ Reachable.new)
    (by decide) (by decide)
